import Mathlib

/-!
Verification development for two components of a React Native error-reporting
client:

* `NativeLinkedErrors` — an event processor that walks an error's cause chain
  (linked through a configurable property key) and prepends canonical
  exception records to the outgoing event, classifying each linked error as a
  Java exception (`stackElements`), a symbolicated Apple exception
  (`stackSymbols`), an unsymbolicated Apple exception
  (`stackReturnAddresses`) or a plain JavaScript error.

* `BackgroundSpans` — an integration that tracks foreground/background
  transitions, creates background spans on the active transaction and, in a
  wrapped `finish`, removes a trailing background span.

JavaScript objects are shallowly embedded: property presence is `Option`,
object references (which may form cycles through the cause key) are `Nat`
addresses resolved through an explicit heap `Nat → Option ErrObj`, JavaScript
numbers used as timestamps are `ℚ`, and the string primitives
(`indexOf`, `substring`, `trimEnd`, `padStart`, `toString(16)`) are modelled
with their ECMAScript clamping/swap semantics.
-/

/-! ## JavaScript string primitives -/

/-- First index `i ≥ i₀` at which `need` occurs in the character list, where
`i₀` is the index of the head of the list in the enclosing string. -/
def findSubAux (need : List Char) : List Char → Nat → Option Nat
  | [], i => if need.isEmpty then some i else none
  | c :: rest, i =>
    if need.isPrefixOf (c :: rest) then some i else findSubAux need (c :: rest).tail (i + 1)

/-- `String.prototype.indexOf(searchString, position)`: `-1` when absent, a
negative `position` is clamped to `0` and a `position` beyond the length to
the length. -/
def jsIndexOfFrom (s sub : String) (fromIndex : Int) : Int :=
  let start : Nat := min fromIndex.toNat s.length
  match findSubAux sub.data (s.data.drop start) start with
  | some i => (i : Int)
  | none => -1

/-- `String.prototype.substring(a, b)`: negative bounds become `0`, bounds
beyond the length are clamped, and the bounds are swapped when `a > b`. -/
def jsSubstring (s : String) (a b : Int) : String :=
  let n := s.length
  let a' := min a.toNat n
  let b' := min b.toNat n
  let lo := min a' b'
  let hi := max a' b'
  ((s.data.drop lo).take (hi - lo)).asString

/-- `String.prototype.trimEnd()` (the inputs parsed here only carry plain
spaces, so `Char.isWhitespace` matches the ECMAScript whitespace set). -/
def jsTrimEnd (s : String) : String :=
  ((s.data.reverse.dropWhile Char.isWhitespace).reverse).asString

/-- `String.prototype.padStart(targetLength, pad)` with a single pad char. -/
def jsPadStart (s : String) (targetLength : Nat) (pad : Char) : String :=
  if s.length < targetLength then
    (List.replicate (targetLength - s.length) pad).asString ++ s
  else s

/-- `Number.prototype.toString(16)` for a non-negative integer: lowercase
hexadecimal digits. -/
def natToHexString (n : Nat) : String :=
  (Nat.toDigits 16 n).asString

/-- `a || b` on a possibly-absent string `a`: the empty string is falsy. -/
def jsStrOr (a : Option String) (b : String) : String :=
  match a with
  | some s => if s = "" then b else s
  | none => b

/-! ## Data model: messages, frames, exception records -/

/-- The dynamic value found in an error's `message` slot: normally a string,
but certain browser event objects end up there; for those the only observable
used by the code is whether `message.error.message` is a string (and which). -/
inductive MsgV where
  | str (s : String)
  | obj (innerErrorMessage : Option String)
  deriving DecidableEq, Repr

/-- JavaScript truthiness of a `message` value: the empty string is the only
falsy case that can occur here (objects are always truthy). -/
def MsgV.truthy : MsgV → Bool
  | .str s => s ≠ ""
  | .obj _ => true

/-- One element of a Java throwable's `stackElements` array. -/
structure JavaStackElement where
  className : String
  fileName : String
  methodName : String
  lineNumber : Int
  deriving DecidableEq, Repr

/-- A Sentry stack frame; every field the two sources ever set is optional
because the frames of the four producers populate different subsets. -/
structure Frame where
  platform : Option String := none
  module : Option String := none
  filename : Option String := none
  lineno : Option Int := none
  function : Option String := none
  package : Option String := none
  instruction_addr : Option String := none
  deriving DecidableEq, Repr

/-- `{ frames: StackFrame[] }`. -/
structure SStacktrace where
  frames : List Frame
  deriving DecidableEq, Repr

/-- A Sentry `Exception` record as produced by this file's four builders. -/
structure SExc where
  type : Option String := none
  value : MsgV := .str ""
  stacktrace : Option SStacktrace := none
  deriving DecidableEq, Repr

/-! ## Data model: error objects and the heap -/

/-- A JavaScript `Error` instance as observed by `NativeLinkedErrors`:
`props` models dynamic property access `error[key]`, whose value is either a
reference (heap address) to another `Error` instance or, when `none`,
anything that fails `isInstanceOf(·, Error)` (absent property included).
The three `stack…` fields model the `'…' in linkedError` probes (`some`
exactly when the property is present). -/
structure ErrObj where
  name : Option String := none
  message : MsgV := .str ""
  stack : Option String := none
  stacktrace : Option String := none
  framesToPop : Option Int := none
  stackElements : Option (List JavaStackElement) := none
  stackSymbols : Option (List String) := none
  stackReturnAddresses : Option (List Nat) := none
  props : String → Option Nat := fun _ => none

/-- The object heap: references that resolve to an `Error` instance. -/
def Heap : Type := Nat → Option ErrObj

/-- `isInstanceOf(v, Error)` for a modelled value: a reference that resolves
in the heap yields the referenced `Error`; everything else is not an error. -/
def derefErr (heap : Heap) : Option Nat → Option ErrObj
  | none => none
  | some r => heap r

/-- The opaque `StackParser` consumed capability: may fail (`none`), in which
case the caller substitutes an empty frame list. -/
def StackParserM : Type := String → Int → Option (List Frame)

/-! ## The dynamically-typed views passed to the three native builders -/

/-- Shape expected by `exceptionFromJavaStackElements` (`name`/`message` kept
optional/dynamic because the actual argument is an untrusted native object). -/
structure JavaThrowable where
  name : Option String
  message : MsgV
  stackElements : List JavaStackElement

/-- Shape expected by `exceptionFromAppleStackSymbols`. -/
structure AppleExceptionSymbols where
  name : Option String
  message : MsgV
  stackSymbols : List String

/-- Shape expected by `exceptionFromAppleStackReturnAddresses`. -/
structure AppleExceptionAddresses where
  name : Option String
  message : MsgV
  stackReturnAddresses : List Nat

/-! ## Builders (from `NativeLinkedErrors`' module) -/

def exceptionFromJavaStackElements (javaThrowable : JavaThrowable) : SExc :=
  { type := javaThrowable.name
    value := javaThrowable.message
    stacktrace := some ⟨javaThrowable.stackElements.map fun stackElement =>
      { platform := some "java"
        module := some stackElement.className
        filename := some stackElement.fileName
        lineno := some stackElement.lineNumber
        function := some stackElement.methodName }⟩ }

/-- The fixed positional scan applied to one symbolicated Apple symbol line. -/
def appleFrameOfStackSymbol (stackSymbol : String) : Frame :=
  let addrStartIndex : Int := jsIndexOfFrom stackSymbol " 0x" 0 + 1
  let addrEndIndex : Int := jsIndexOfFrom stackSymbol " " addrStartIndex
  let pkg := jsTrimEnd (jsSubstring stackSymbol 5 addrStartIndex)
  let addr := jsSubstring stackSymbol (addrStartIndex + 2) (addrEndIndex - 1)
  let functionEndIndex := jsIndexOfFrom stackSymbol " + " addrEndIndex
  let func := jsSubstring stackSymbol (addrEndIndex + 1) functionEndIndex
  { platform := some "cocoa"
    package := some pkg
    function := some func
    instruction_addr := some addr }

def exceptionFromAppleStackSymbols (objCException : AppleExceptionSymbols) : SExc :=
  { type := objCException.name
    value := objCException.message
    stacktrace := some ⟨objCException.stackSymbols.map appleFrameOfStackSymbol⟩ }

def exceptionFromAppleStackReturnAddresses (objCException : AppleExceptionAddresses) : SExc :=
  { type := objCException.name
    value := objCException.message
    stacktrace := some ⟨objCException.stackReturnAddresses.map fun returnAddress =>
      { platform := some "cocoa"
        instruction_addr := some (jsPadStart (natToHexString returnAddress) 16 '0') }⟩ }

/-! ## Standard-error conversion -/

/-- Case-insensitive prefix strip: `some rest` iff the lowercase pattern
matches the head of `cs` (pattern chars are already lowercase). -/
def stripPrefixCI : List Char → List Char → Option (List Char)
  | [], cs => some cs
  | _ :: _, [] => none
  | p :: ps, c :: cs => if p = c.toLower then stripPrefixCI ps cs else none

/-- After the digits of `\d+;`: consume further digits, then require `;`. -/
def digitsThenSemicolon : List Char → Bool
  | [] => false
  | c :: cs => if c.isDigit then digitsThenSemicolon cs else c = ';'

/-- `\d+;` at the head of the list. -/
def oneDigitThenSemicolon : List Char → Bool
  | [] => false
  | c :: cs => c.isDigit && digitsThenSemicolon cs

/-- The regexp `/Minified React error #\d+;/i` matches at the head. -/
def reactMinifiedAt (cs : List Char) : Bool :=
  match stripPrefixCI "minified react error #".data cs with
  | some rest => oneDigitThenSemicolon rest
  | none => false

/-- `RegExp.prototype.test`: the pattern matches at some position. -/
def reactMinifiedTest (s : String) : Bool :=
  go s.data
where
  go : List Char → Bool
    | [] => reactMinifiedAt []
    | c :: cs => reactMinifiedAt (c :: cs) || go cs

/-- `reactMinifiedRegexp.test(ex.message)` — a non-string message coerces to
`"[object Object]"`, which never matches. -/
def msgReactMinifiedTest : MsgV → Bool
  | .str s => reactMinifiedTest s
  | .obj _ => false

def getPopSize (ex : ErrObj) : Int :=
  match ex.framesToPop with
  | some n => n
  | none => if msgReactMinifiedTest ex.message then 1 else 0

def parseStackFrames (stackParser : StackParserM) (ex : ErrObj) : List Frame :=
  let stacktrace := jsStrOr ex.stacktrace (jsStrOr ex.stack "")
  let popSize := getPopSize ex
  (stackParser stacktrace popSize).getD []

def extractMessage (ex : ErrObj) : MsgV :=
  let message := ex.message
  if message.truthy = false then .str "No error message"
  else
    match message with
    | .obj (some innerMessage) => .str innerMessage
    | _ => message

def exceptionFromError (stackParser : StackParserM) (ex : ErrObj) : SExc :=
  let frames := parseStackFrames stackParser ex
  let exception : SExc := { type := ex.name, value := extractMessage ex }
  let exception :=
    if frames.length ≠ 0 then { exception with stacktrace := some ⟨frames⟩ } else exception
  if exception.type = none ∧ exception.value = .str "" then
    { exception with value := .str "Unrecoverable error caught" }
  else exception

/-! ## The chain walker -/

/-- The four-way classification of `error[key]` performed inside
`_walkErrorTree` (`'stackElements' in …`, `'stackSymbols' in …`,
`'stackReturnAddresses' in …`, else plain JavaScript error). -/
def exceptionForLinked (parser : StackParserM) (linkedError : ErrObj) : SExc :=
  match linkedError.stackElements with
  | some els => exceptionFromJavaStackElements ⟨linkedError.name, linkedError.message, els⟩
  | none =>
    match linkedError.stackSymbols with
    | some syms => exceptionFromAppleStackSymbols ⟨linkedError.name, linkedError.message, syms⟩
    | none =>
      match linkedError.stackReturnAddresses with
      | some addrs =>
        exceptionFromAppleStackReturnAddresses ⟨linkedError.name, linkedError.message, addrs⟩
      | none => exceptionFromError parser linkedError

/-- `NativeLinkedErrors._walkErrorTree`. -/
def walkErrorTree (parser : StackParserM) (heap : Heap) (limit : Nat) (error : ErrObj)
    (key : String) (stack : List SExc) : List SExc :=
  match derefErr heap (error.props key) with
  | none => stack
  | some linkedError =>
    if _h : stack.length + 1 ≥ limit then stack
    else
      walkErrorTree parser heap limit linkedError key (exceptionForLinked parser linkedError :: stack)
termination_by limit - stack.length
decreasing_by simp only [List.length_cons]; omega

/-- Fuel-indexed evaluator for `_walkErrorTree`: `none` when the recursion
has not reached its result within `fuel` call frames. -/
def walkErrorTreeFuel (parser : StackParserM) (heap : Heap) :
    Nat → Nat → ErrObj → String → List SExc → Option (List SExc)
  | 0, _, _, _, _ => none
  | fuel + 1, limit, error, key, stack =>
    match derefErr heap (error.props key) with
    | none => some stack
    | some linkedError =>
      if stack.length + 1 ≥ limit then some stack
      else
        walkErrorTreeFuel parser heap fuel limit linkedError key
          (exceptionForLinked parser linkedError :: stack)

/-! ## The event processor -/

/-- `event.exception` (`values` optional, mirroring the Sentry event type). -/
structure ExceptionAggregate where
  values : Option (List SExc)

/-- The slice of a Sentry event the processor reads and writes. -/
structure SEvent where
  exception : Option ExceptionAggregate

/-- `EventHint`: `originalException` is a reference that resolves in the heap
exactly when the hinted value is an `Error` instance. -/
structure SEventHint where
  originalException : Option Nat

/-- `NativeLinkedErrors._handler`. -/
def handler (parser : StackParserM) (heap : Heap) (key : String) (limit : Nat)
    (event : SEvent) (hint : Option SEventHint) : SEvent :=
  match event.exception with
  | none => event
  | some agg =>
    match agg.values with
    | none => event
    | some values =>
      match hint with
      | none => event
      | some h =>
        match derefErr heap h.originalException with
        | none => event
        | some originalException =>
          let linkedErrors := walkErrorTree parser heap limit originalException key []
          { event with exception := some ⟨some (linkedErrors ++ values)⟩ }

/-! ## Constructor defaults -/

def DEFAULT_KEY : String := "cause"

def DEFAULT_LIMIT : Nat := 5

/-- `Partial<LinkedErrorsOptions>`. -/
structure LinkedErrorsOptions where
  key : Option String := none
  limit : Option Nat := none

/-- The `_key`/`_limit` fields of a constructed `NativeLinkedErrors`. -/
structure NativeLinkedErrorsState where
  key : String
  limit : Nat
  deriving DecidableEq, Repr

/-- `new NativeLinkedErrors(options)`: `options.key || DEFAULT_KEY` and
`options.limit || DEFAULT_LIMIT` (the empty string and `0` are falsy). -/
def nativeLinkedErrorsConstructor (options : LinkedErrorsOptions) : NativeLinkedErrorsState :=
  { key :=
      match options.key with
      | some k => if k = "" then DEFAULT_KEY else k
      | none => DEFAULT_KEY
    limit :=
      match options.limit with
      | some n => if n = 0 then DEFAULT_LIMIT else n
      | none => DEFAULT_LIMIT }

/-! ## BackgroundSpans -/

def BACKGROUND_SPAN_OP : String := "app.background"

/-- A child span of a transaction, as read by the wrapped `finish`:
`endTimestamp` is `undefined` while the span is still open. -/
structure Span where
  op : String := ""
  description : String := ""
  startTimestamp : ℚ := 0
  endTimestamp : Option ℚ := none
  deriving DecidableEq, Repr

/-- JavaScript truthiness of `_currentBackgroundStartTimestamp`
(`undefined` and `0` are falsy). -/
def jsTruthyNum : Option ℚ → Bool
  | none => false
  | some t => t ≠ 0

/-- One `AppState` `"change"` callback invocation: given the stored
`_currentBackgroundStartTimestamp`, the reported state string and the value
`timestampInSeconds()` returns, produce the new stored timestamp and, when a
background span would be created (`_createBackgroundSpan` is called), its
`(startTimestamp, endTimestamp)` pair. -/
def appStateChangeStep (backgroundStart : Option ℚ) (state : String) (now : ℚ) :
    Option ℚ × Option (ℚ × ℚ) :=
  if state = "active" ∧ jsTruthyNum backgroundStart then
    (none, some (backgroundStart.getD 0, now))
  else if state = "background" ∧ jsTruthyNum backgroundStart = false then
    (some now, none)
  else (backgroundStart, none)

/-- The stored timestamp after a sequence of lifecycle events (each a state
string paired with the clock reading at that event), starting from the
initial `undefined`. -/
def runAppState (events : List (String × ℚ)) : Option ℚ :=
  events.foldl (fun backgroundStart e => (appStateChangeStep backgroundStart e.1 e.2).1) none

/-- One iteration of the backward scan of `beforeTransactionFinish`, at list
index `i`, with `acc` the `(trailingSpanIndex, trailingSpan)` pair
accumulated so far.  A candidate is replaced only when both it and the
visited span have an end timestamp and the visited one is strictly later. -/
def trailingStep (spans : List Span) (i : Nat) (acc : Option (Nat × Span)) :
    Option (Nat × Span) :=
  match spans[i]? with
  | none => acc
  | some span =>
    match acc with
    | none => some (i, span)
    | some (trailingSpanIndex, trailingSpan) =>
      match span.endTimestamp, trailingSpan.endTimestamp with
      | some e, some te =>
        if te < e then some (i, span) else some (trailingSpanIndex, trailingSpan)
      | _, _ => some (trailingSpanIndex, trailingSpan)

/-- The backward scan over the child-span list: `trailingGo spans i acc`
processes indices `i-1, i-2, …, 0`. -/
def trailingGo (spans : List Span) : Nat → Option (Nat × Span) → Option (Nat × Span)
  | 0, acc => acc
  | i + 1, acc => trailingGo spans i (trailingStep spans i acc)

/-- The full scan: the loop `for (let i = spans.length - 1; i >= 0; i--)`. -/
def trailingScan (spans : List Span) : Option (Nat × Span) :=
  trailingGo spans spans.length none

/-- The effect of the wrapped `finish` on the child-span list: when a
trailing span was found and its op is the background op, `splice` it out;
otherwise leave the list untouched. -/
def beforeTransactionFinishSpans (spans : List Span) : List Span :=
  match trailingScan spans with
  | none => spans
  | some (trailingSpanIndex, trailingSpan) =>
    if trailingSpan.op = BACKGROUND_SPAN_OP then spans.eraseIdx trailingSpanIndex else spans

/-- The wrapped `finish` seen from the span recorder: when the recorder (or
its span list) is unavailable the original `finish` runs on an untouched
transaction. -/
def beforeTransactionFinish (spanRecorderSpans : Option (List Span)) : Option (List Span) :=
  match spanRecorderSpans with
  | none => none
  | some spans => some (beforeTransactionFinishSpans spans)

/-! ## Concrete fixtures used by witnesses and counterexamples -/

def parserEmpty : StackParserM := fun _ _ => some []

def parserFail : StackParserM := fun _ _ => none

def causeProps : String → Option Nat := fun k => if k = "cause" then some 0 else none

def chainChild : ErrObj := { name := some "Child", message := .str "child failure" }

def chainHeap : Heap := fun r => if r = 0 then some chainChild else none

def chainRoot : ErrObj := { name := some "Root", message := .str "root failure", props := causeProps }

def chainEs : Nat → ErrObj := fun i => if i = 0 then chainRoot else chainChild

def selfCycleErr : ErrObj := { name := some "Loop", message := .str "cyclic", props := causeProps }

def selfCycleHeap : Heap := fun r => if r = 0 then some selfCycleErr else none

def emptyMessageErr : ErrObj := { name := none, message := .str "" }

def javaEmptyElements : ErrObj :=
  { name := some "JavaException", message := .str "native boom", stackElements := some [] }

def javaEmptyHeap : Heap := fun r => if r = 0 then some javaEmptyElements else none

def javaEmptyRoot : ErrObj := { name := some "Root", message := .str "root", props := causeProps }

def spanHttp : Span :=
  { op := "http.client", description := "request", startTimestamp := 1, endTimestamp := some 3 }

def spanBgTrailing : Span :=
  { op := "app.background", description := "App in background", startTimestamp := 4,
    endTimestamp := some 7 }

def spanOpenNav : Span :=
  { op := "navigation", description := "route", startTimestamp := 2, endTimestamp := none }

def spanTieA : Span :=
  { op := "db.query", description := "q", startTimestamp := 0, endTimestamp := some 5 }

def spanTieB : Span :=
  { op := "ui.load", description := "u", startTimestamp := 1, endTimestamp := some 5 }

/-! ## Proof infrastructure -/

theorem walkErrorTree_not_error {parser : StackParserM} {heap : Heap} {limit : Nat} {error : ErrObj}
    {key : String} {stack : List SExc} (h : derefErr heap (error.props key) = none) :
    walkErrorTree parser heap limit error key stack = stack := by
  unfold walkErrorTree
  rw [h]

theorem walkErrorTree_limit {parser : StackParserM} {heap : Heap} {limit : Nat} {error : ErrObj}
    {key : String} {stack : List SExc} {linkedError : ErrObj}
    (h : derefErr heap (error.props key) = some linkedError)
    (hl : stack.length + 1 ≥ limit) :
    walkErrorTree parser heap limit error key stack = stack := by
  unfold walkErrorTree
  rw [h]
  simp [hl]

theorem walkErrorTree_step {parser : StackParserM} {heap : Heap} {limit : Nat} {error : ErrObj}
    {key : String} {stack : List SExc} {linkedError : ErrObj}
    (h : derefErr heap (error.props key) = some linkedError)
    (hl : ¬stack.length + 1 ≥ limit) :
    walkErrorTree parser heap limit error key stack =
      walkErrorTree parser heap limit linkedError key
        (exceptionForLinked parser linkedError :: stack) := by
  conv_lhs => unfold walkErrorTree
  rw [h]
  simp [hl]

theorem walkErrorTree_chain (parser : StackParserM) (heap : Heap) (key : String)
    (es : Nat → ErrObj) (n : Nat)
    (hc : ∀ i, i < n → derefErr heap ((es i).props key) = some (es (i + 1)))
    (hend : derefErr heap ((es n).props key) = none) :
    ∀ (fuel limit : Nat) (stack : List SExc) (i : Nat), limit - stack.length ≤ fuel → i ≤ n →
      walkErrorTree parser heap limit (es i) key stack =
        ((List.range (min (n - i) (limit - 1 - stack.length))).map
          (fun k => exceptionForLinked parser (es (i + 1 + k)))).reverse ++ stack := by
  intro fuel
  induction fuel with
  | zero =>
    intro limit stack i hfuel _hi
    have h0 : limit - 1 - stack.length = 0 := by omega
    rw [h0]
    simp only [Nat.min_zero, List.range_zero, List.map_nil, List.reverse_nil, List.nil_append]
    rcases hd : derefErr heap ((es i).props key) with _ | linked
    · exact walkErrorTree_not_error hd
    · exact walkErrorTree_limit hd (by omega)
  | succ fuel ih =>
    intro limit stack i hfuel hi
    rcases Nat.lt_or_ge i n with hin | hin
    · have hd := hc i hin
      by_cases hl : stack.length + 1 ≥ limit
      · have h0 : limit - 1 - stack.length = 0 := by omega
        rw [h0]
        simp only [Nat.min_zero, List.range_zero, List.map_nil, List.reverse_nil, List.nil_append]
        exact walkErrorTree_limit hd hl
      · rw [walkErrorTree_step hd hl]
        rw [ih limit (exceptionForLinked parser (es (i + 1)) :: stack) (i + 1)
          (by simp only [List.length_cons]; omega) (by omega)]
        have hm : min (n - i) (limit - 1 - stack.length)
            = min (n - (i + 1)) (limit - 1 - (exceptionForLinked parser (es (i + 1)) :: stack).length) + 1 := by
          simp only [List.length_cons]; omega
        rw [hm, List.range_succ_eq_map, List.map_cons, List.map_map, List.reverse_cons]
        have hfun : ((fun k => exceptionForLinked parser (es (i + 1 + k))) ∘ Nat.succ)
            = fun k => exceptionForLinked parser (es (i + 1 + 1 + k)) := by
          funext k
          simp only [Function.comp_apply]
          congr 2
          omega
        rw [hfun]
        simp only [Nat.add_zero, List.append_assoc, List.singleton_append]
    · have hieq : i = n := by omega
      subst hieq
      rw [walkErrorTree_not_error hend]
      simp

/-- C1: for every cause chain of `n` consecutive error-like causes reachable from
the hinted original error, under configured limit `L`, `walkErrorTree` returns a
record list of length `min n (L - 1)`, ordered oldest cause first: the result is
the reverse of the records of causes `1..min n (L-1)`, so the deepest visited
cause is the first element. -/
theorem c1_theorem (parser : StackParserM) (heap : Heap) (key : String)
    (es : Nat → ErrObj) (n limit : Nat)
    (hc : ∀ i, i < n → derefErr heap ((es i).props key) = some (es (i + 1)))
    (hend : derefErr heap ((es n).props key) = none) :
    walkErrorTree parser heap limit (es 0) key [] =
      ((List.range (min n (limit - 1))).map (fun k => exceptionForLinked parser (es (k + 1)))).reverse ∧
    (walkErrorTree parser heap limit (es 0) key []).length = min n (limit - 1) := by
  have h := walkErrorTree_chain parser heap key es n hc hend limit limit [] 0 (by simp) (Nat.zero_le n)
  simp only [List.length_nil, Nat.sub_zero, List.append_nil] at h
  have hfun : (fun k => exceptionForLinked parser (es (0 + 1 + k)))
      = fun k => exceptionForLinked parser (es (k + 1)) := by
    funext k
    congr 2
    omega
  rw [hfun] at h
  refine ⟨h, ?_⟩
  rw [h]
  simp

theorem c1_witness :
    walkErrorTree parserEmpty chainHeap 5 (chainEs 0) "cause" [] =
      ((List.range (min 1 4)).map (fun k => exceptionForLinked parserEmpty (chainEs (k + 1)))).reverse ∧
    (walkErrorTree parserEmpty chainHeap 5 (chainEs 0) "cause" []).length = min 1 4 :=
  c1_theorem parserEmpty chainHeap "cause" chainEs 1 5
    (fun i hi => by
      have h0 : i = 0 := by omega
      subst h0
      rfl)
    rfl

theorem walkErrorTreeFuel_complete (parser : StackParserM) (heap : Heap) :
    ∀ (fuel limit : Nat) (error : ErrObj) (key : String) (stack : List SExc),
      limit - stack.length < fuel →
      walkErrorTreeFuel parser heap fuel limit error key stack =
        some (walkErrorTree parser heap limit error key stack) := by
  intro fuel
  induction fuel with
  | zero => intro limit error key stack h; omega
  | succ fuel ih =>
    intro limit error key stack h
    rcases hd : derefErr heap (error.props key) with _ | linked
    · rw [walkErrorTree_not_error hd]
      simp [walkErrorTreeFuel, hd]
    · by_cases hl : stack.length + 1 ≥ limit
      · rw [walkErrorTree_limit hd hl]
        simp [walkErrorTreeFuel, hd, hl]
      · rw [walkErrorTree_step hd hl]
        rw [show walkErrorTreeFuel parser heap (fuel + 1) limit error key stack
            = walkErrorTreeFuel parser heap fuel limit linked key
              (exceptionForLinked parser linked :: stack) by simp [walkErrorTreeFuel, hd, hl]]
        exact ih limit linked key (exceptionForLinked parser linked :: stack)
          (by simp only [List.length_cons]; omega)

theorem walkErrorTree_selfCycle (parser : StackParserM) (heap : Heap) (r : Nat) (e : ErrObj)
    (key : String) (hr : heap r = some e) (hcy : e.props key = some r) :
    ∀ (fuel limit : Nat) (stack : List SExc), limit - stack.length ≤ fuel →
      (walkErrorTree parser heap limit e key stack).length = max stack.length (limit - 1) := by
  have hd : derefErr heap (e.props key) = some e := by rw [hcy]; exact hr
  intro fuel
  induction fuel with
  | zero =>
    intro limit stack h
    rw [walkErrorTree_limit hd (by omega)]
    omega
  | succ fuel ih =>
    intro limit stack h
    by_cases hl : stack.length + 1 ≥ limit
    · rw [walkErrorTree_limit hd hl]
      omega
    · rw [walkErrorTree_step hd hl]
      rw [ih limit (exceptionForLinked parser e :: stack) (by simp only [List.length_cons]; omega)]
      simp only [List.length_cons]
      omega

/-- C7 (amended): `_walkErrorTree` always terminates — a fuel-indexed evaluation
of `walkErrorTree` reaches the result once the fuel exceeds `limit - stack.length`
— and a self-cycle (`error[key] === error`) terminates through the depth guard
after producing `limit - 1` records, not within one extra step. -/
theorem c7_theorem :
    (∀ (parser : StackParserM) (heap : Heap) (fuel limit : Nat) (error : ErrObj) (key : String)
        (stack : List SExc), limit - stack.length < fuel →
      walkErrorTreeFuel parser heap fuel limit error key stack =
        some (walkErrorTree parser heap limit error key stack)) ∧
    (∀ (parser : StackParserM) (heap : Heap) (r : Nat) (e : ErrObj) (key : String) (limit : Nat),
      heap r = some e → e.props key = some r →
      (walkErrorTree parser heap limit e key []).length = limit - 1) :=
  ⟨fun parser heap fuel limit error key stack h =>
    walkErrorTreeFuel_complete parser heap fuel limit error key stack h,
   fun parser heap r e key limit hr hcy => by
    rw [walkErrorTree_selfCycle parser heap r e key hr hcy limit limit [] (by simp)]
    simp⟩

theorem c7_witness :
    walkErrorTreeFuel parserEmpty selfCycleHeap 6 5 selfCycleErr "cause" [] =
      some (walkErrorTree parserEmpty selfCycleHeap 5 selfCycleErr "cause" []) ∧
    (walkErrorTree parserEmpty selfCycleHeap 5 selfCycleErr "cause" []).length = 4 :=
  ⟨c7_theorem.1 parserEmpty selfCycleHeap 6 5 selfCycleErr "cause" [] (by simp),
   c7_theorem.2 parserEmpty selfCycleHeap 0 selfCycleErr "cause" 5 rfl rfl⟩

/-- C7 counterexample: one recursion step beyond the initial call does not
finish a self-cyclic walk at the default limit. -/
theorem c7_counterexample :
    walkErrorTreeFuel parserEmpty selfCycleHeap 2 5 selfCycleErr "cause" [] = none ∧
    (walkErrorTree parserEmpty selfCycleHeap 5 selfCycleErr "cause" []).length = 4 := by
  refine ⟨rfl, ?_⟩
  rw [walkErrorTree_selfCycle parserEmpty selfCycleHeap 0 selfCycleErr "cause" rfl rfl 5 5 []
    (by simp)]
  simp

/-- C5: if the event carries no exception data (no `exception` or no `values`),
or the hint is absent, or the hinted original value is not an `Error` instance,
then `handler` returns the event unchanged. -/
theorem c5_theorem (parser : StackParserM) (heap : Heap) (key : String) (limit : Nat)
    (event : SEvent) (hint : Option SEventHint)
    (h : event.exception = none
      ∨ (∃ agg, event.exception = some agg ∧ agg.values = none)
      ∨ hint = none
      ∨ (∀ hh, hint = some hh → derefErr heap hh.originalException = none)) :
    handler parser heap key limit event hint = event := by
  obtain ⟨exc⟩ := event
  rcases exc with _ | ⟨vals⟩
  · rfl
  · rcases vals with _ | values
    · rfl
    · rcases hint with _ | hh
      · rfl
      · rcases h with h | ⟨agg, h1, h2⟩ | h | h
        · exact absurd h (by simp)
        · injection h1 with h1
          rw [← h1] at h2
          exact absurd h2 (by simp)
        · exact absurd h (by simp)
        · have hd := h hh rfl
          simp [handler, hd]

theorem c5_witness :
    handler parserEmpty chainHeap "cause" 5 ⟨none⟩ none = ⟨none⟩ :=
  c5_theorem parserEmpty chainHeap "cause" 5 ⟨none⟩ none (Or.inl rfl)

/-- Reachable stored background timestamps are positive when the clock only
produces positive readings. -/
theorem runAppState_pos :
    ∀ (events : List (String × ℚ)) (backgroundStart : Option ℚ),
      (∀ e ∈ events, 0 < e.2) → (∀ t, backgroundStart = some t → 0 < t) →
      ∀ t, events.foldl (fun bg e => (appStateChangeStep bg e.1 e.2).1) backgroundStart = some t →
        0 < t := by
  intro events
  induction events with
  | nil => intro bg _ hbg t ht; exact hbg t ht
  | cons e rest ih =>
    intro bg hpos hbg t ht
    refine ih ((appStateChangeStep bg e.1 e.2).1) (fun x hx => hpos x (List.mem_cons_of_mem e hx))
      ?_ t ht
    intro u hu
    unfold appStateChangeStep at hu
    split at hu
    · simp at hu
    · split at hu
      · simp only [Prod.fst] at hu
        injection hu with hu
        rw [← hu]
        exact hpos e (List.mem_cons_self e rest)
      · exact hbg u hu

/-- C8: in every state of the lifecycle handler reachable under a clock that
returns positive seconds-since-epoch readings, if `backgroundStart` is set then
a further "background" event leaves it unchanged. -/
theorem c8_theorem (events : List (String × ℚ)) (hpos : ∀ e ∈ events, 0 < e.2) (t : ℚ)
    (ht : runAppState events = some t) (now : ℚ) :
    (appStateChangeStep (some t) "background" now).1 = some t := by
  have htpos : 0 < t := runAppState_pos events none hpos (by simp) t ht
  unfold appStateChangeStep
  have htr : jsTruthyNum (some t) = true := by
    simp [jsTruthyNum]
    exact htpos.ne'
  rw [htr]
  simp

theorem c8_witness :
    (appStateChangeStep (some 10) "background" 20).1 = some 10 :=
  c8_theorem [("background", 10)] (by decide) 10 rfl 20

/-- C9: constructing `NativeLinkedErrors` with the falsy options `key = ""` and
`limit = 0` silently substitutes the defaults: the constructed state equals that
of `key = "cause"`, `limit = 5`, and the chain walk behaves identically — in
particular a zero limit does not mean "return no records". -/
theorem c9_theorem :
    nativeLinkedErrorsConstructor ⟨some "", some 0⟩ = nativeLinkedErrorsConstructor ⟨some DEFAULT_KEY, some DEFAULT_LIMIT⟩ ∧
    nativeLinkedErrorsConstructor ⟨some "", some 0⟩ = ⟨"cause", 5⟩ ∧
    (∀ (parser : StackParserM) (heap : Heap) (error : ErrObj) (stack : List SExc),
      walkErrorTree parser heap (nativeLinkedErrorsConstructor ⟨some "", some 0⟩).limit error
          (nativeLinkedErrorsConstructor ⟨some "", some 0⟩).key stack
        = walkErrorTree parser heap DEFAULT_LIMIT error DEFAULT_KEY stack) :=
  ⟨rfl, rfl, fun _ _ _ _ => rfl⟩

/-- C2 counterexample: on the claim's input line the produced frame carries
package "yApp" and a 15-digit address, not the claimed values. -/
theorem c2_counterexample :
    (exceptionFromAppleStackSymbols
        ⟨some "NSGenericException", .str "msg",
          ["0   MyApp   0x0000000102345678 -[MyApp foo] + 40"]⟩).stacktrace =
      some ⟨[{ platform := some "cocoa", function := some "-[MyApp foo]",
               package := some "yApp", instruction_addr := some "000000010234567" }]⟩ ∧
    (some "yApp" ≠ some "MyApp") ∧
    (some "000000010234567" ≠ some "0000000102345678") := by
  refine ⟨rfl, by decide, by decide⟩

/-- C2 (amended): for the input symbol line
`"0   MyApp   0x0000000102345678 -[MyApp foo] + 40"`, the fixed positional
substring rule of `exceptionFromAppleStackSymbols` produces a frame with package
`"yApp"` (offset 5 drops the first character of a package starting at column 4),
instruction_addr `"000000010234567"` (the `addrEndIndex - 1` bound drops the
final hex digit), and function `"-[MyApp foo]"`. -/
theorem c2_theorem (name : Option String) (message : MsgV) :
    exceptionFromAppleStackSymbols
        ⟨name, message, ["0   MyApp   0x0000000102345678 -[MyApp foo] + 40"]⟩ =
      { type := name, value := message,
        stacktrace := some ⟨[{ platform := some "cocoa", function := some "-[MyApp foo]",
                               package := some "yApp",
                               instruction_addr := some "000000010234567" }]⟩ } := rfl

/-- C3 counterexample. -/
theorem c3_counterexample :
    (exceptionFromError parserEmpty emptyMessageErr).value = .str "No error message" ∧
    MsgV.str "No error message" ≠ MsgV.str "Unrecoverable error caught" := by
  refine ⟨rfl, by decide⟩

/-- C3 (amended): for every `Error` whose message is the empty string and whose
name is undefined, `exceptionFromError` returns a record whose value is the
absent-message placeholder `"No error message"`; the
`"Unrecoverable error caught"` substitution does not fire because the extracted
value is non-empty. -/
theorem c3_theorem (parser : StackParserM) (ex : ErrObj) (hname : ex.name = none)
    (hmsg : ex.message = .str "") :
    (exceptionFromError parser ex).value = .str "No error message" := by
  have hex : extractMessage ex = .str "No error message" := by
    unfold extractMessage
    rw [hmsg]
    simp [MsgV.truthy]
  unfold exceptionFromError
  rw [hex, hname]
  dsimp only
  split <;> simp

theorem c3_witness :
    (exceptionFromError parserEmpty { name := none, message := .str "", stack := some "s" }).value
      = .str "No error message" :=
  c3_theorem parserEmpty { name := none, message := .str "", stack := some "s" } rfl rfl

/-- C6 counterexample: the chain walker's Java branch produces a record whose
stacktrace is present with an empty frames list. -/
theorem c6_counterexample :
    walkErrorTree parserEmpty javaEmptyHeap 5 javaEmptyRoot "cause" [] =
      [{ type := some "JavaException", value := .str "native boom", stacktrace := some ⟨[]⟩ }] ∧
    (some (⟨[]⟩ : SStacktrace) ≠ none) := by
  constructor
  · have hd1 : derefErr javaEmptyHeap (javaEmptyRoot.props "cause") = some javaEmptyElements := rfl
    have hd2 : derefErr javaEmptyHeap (javaEmptyElements.props "cause") = none := rfl
    rw [walkErrorTree_step hd1 (by decide), walkErrorTree_not_error hd2]
    rfl
  · simp

/-- C6 (amended): only the script-error branch (`exceptionFromError`) omits the
stacktrace field when no frames were extracted; the `stackElements`,
`stackSymbols` and `stackReturnAddresses` branches always attach a stacktrace
containing the mapped (possibly empty) frames list. -/
theorem c6_theorem :
    (∀ (parser : StackParserM) (ex : ErrObj), parseStackFrames parser ex = [] →
      (exceptionFromError parser ex).stacktrace = none) ∧
    (∀ jt : JavaThrowable, (exceptionFromJavaStackElements jt).stacktrace
      = some ⟨jt.stackElements.map fun stackElement =>
          { platform := some "java", module := some stackElement.className,
            filename := some stackElement.fileName, lineno := some stackElement.lineNumber,
            function := some stackElement.methodName }⟩) ∧
    (∀ oc : AppleExceptionSymbols, (exceptionFromAppleStackSymbols oc).stacktrace
      = some ⟨oc.stackSymbols.map appleFrameOfStackSymbol⟩) ∧
    (∀ oc : AppleExceptionAddresses, (exceptionFromAppleStackReturnAddresses oc).stacktrace
      = some ⟨oc.stackReturnAddresses.map fun returnAddress =>
          { platform := some "cocoa",
            instruction_addr := some (jsPadStart (natToHexString returnAddress) 16 '0') }⟩) := by
  refine ⟨?_, fun _ => rfl, fun _ => rfl, fun _ => rfl⟩
  intro parser ex h
  unfold exceptionFromError
  rw [h]
  dsimp only
  split
  · simp_all
  · split <;> rfl

theorem c6_witness :
    parseStackFrames parserFail emptyMessageErr = [] ∧
    (exceptionFromError parserFail emptyMessageErr).stacktrace = none :=
  ⟨rfl, c6_theorem.1 parserFail emptyMessageErr rfl⟩

/-- One scan iteration keeps the accumulator pointing at its own list entry. -/
theorem trailingStep_valid (spans : List Span) (i : Nat) (acc : Option (Nat × Span))
    (hacc : ∀ j s, acc = some (j, s) → spans[j]? = some s) :
    ∀ j s, trailingStep spans i acc = some (j, s) → spans[j]? = some s := by
  intro j s h
  unfold trailingStep at h
  rcases hsp : spans[i]? with _ | span <;> rw [hsp] at h
  · exact hacc j s h
  · rcases acc with _ | ⟨ti, ts⟩
    · dsimp only at h
      injection h with h
      rw [Prod.mk.injEq] at h
      obtain ⟨rfl, rfl⟩ := h
      exact hsp
    · dsimp only at h
      rcases hse : span.endTimestamp with _ | ev <;> rcases hte : ts.endTimestamp with _ | tev <;>
        rw [hse, hte] at h <;> dsimp only at h
      · exact hacc j s h
      · exact hacc j s h
      · exact hacc j s h
      · split at h
        · injection h with h
          rw [Prod.mk.injEq] at h
          obtain ⟨rfl, rfl⟩ := h
          exact hsp
        · exact hacc j s h

/-- Every pair produced by the backward scan points at its own list entry. -/
theorem trailingGo_valid (spans : List Span) :
    ∀ (i : Nat) (acc : Option (Nat × Span)),
      (∀ j s, acc = some (j, s) → spans[j]? = some s) →
      ∀ j s, trailingGo spans i acc = some (j, s) → spans[j]? = some s := by
  intro i
  induction i with
  | zero => intro acc hacc j s h; exact hacc j s h
  | succ i ih =>
    intro acc hacc j s h
    exact ih (trailingStep spans i acc) (trailingStep_valid spans i acc hacc) j s h

theorem trailingStep_skip_open (spans : List Span) (i j : Nat) (span s : Span)
    (hsp : spans[i]? = some span) (hse : span.endTimestamp = none)
    (hs : s.endTimestamp = some e) :
    trailingStep spans i (some (j, s)) = some (j, s) := by
  unfold trailingStep
  rw [hsp]
  dsimp only
  rw [hse, hs]

theorem trailingStep_update (spans : List Span) (i j : Nat) (span s : Span) (ev e : ℚ)
    (hsp : spans[i]? = some span) (hse : span.endTimestamp = some ev)
    (hs : s.endTimestamp = some e) (hlt : e < ev) :
    trailingStep spans i (some (j, s)) = some (i, span) := by
  unfold trailingStep
  rw [hsp]
  dsimp only
  rw [hse, hs]
  dsimp only
  rw [if_pos hlt]

theorem trailingStep_keep (spans : List Span) (i j : Nat) (span s : Span) (ev e : ℚ)
    (hsp : spans[i]? = some span) (hse : span.endTimestamp = some ev)
    (hs : s.endTimestamp = some e) (hnlt : ¬e < ev) :
    trailingStep spans i (some (j, s)) = some (j, s) := by
  unfold trailingStep
  rw [hsp]
  dsimp only
  rw [hse, hs]
  dsimp only
  rw [if_neg hnlt]

/-- An accumulator holding an open span is never replaced. -/
theorem trailingGo_open_acc (spans : List Span) :
    ∀ (i j : Nat) (s : Span), s.endTimestamp = none →
      trailingGo spans i (some (j, s)) = some (j, s) := by
  intro i
  induction i with
  | zero => intro j s _; rfl
  | succ i ih =>
    intro j s hs
    have hstep : trailingStep spans i (some (j, s)) = some (j, s) := by
      unfold trailingStep
      rcases hsp : spans[i]? with _ | span
      · rfl
      · dsimp only
        rcases hse : span.endTimestamp with _ | ev <;> rw [hs]
    rw [show trailingGo spans (i + 1) (some (j, s))
        = trailingGo spans i (trailingStep spans i (some (j, s))) from rfl, hstep]
    exact ih j s hs

/-- The scan of a non-empty list starts from its last element. -/
theorem trailingScan_eq_go (spans : List Span) (m : Nat) (slast : Span)
    (hm : spans.length = m + 1) (hlast : spans[m]? = some slast) :
    trailingScan spans = trailingGo spans m (some (m, slast)) := by
  unfold trailingScan
  rw [hm]
  rw [show trailingGo spans (m + 1) none = trailingGo spans m (trailingStep spans m none) from rfl]
  have hstep : trailingStep spans m none = some (m, slast) := by
    unfold trailingStep
    rw [hlast]
  rw [hstep]

/-- Invariant of the backward scan with an accumulator that has an end
timestamp: the result is the ended span with maximal end among the
accumulator and the remaining indices, with ties resolved toward the
accumulator (i.e.  the larger index, since the scan runs backward). -/
theorem trailingGo_argmax (spans : List Span) :
    ∀ (i j : Nat) (s : Span) (e : ℚ), i ≤ j → spans[j]? = some s → s.endTimestamp = some e →
      ∃ j' s' e', trailingGo spans i (some (j, s)) = some (j', s') ∧
        spans[j']? = some s' ∧ s'.endTimestamp = some e' ∧ e ≤ e' ∧
        (∀ k t et, k < i → spans[k]? = some t → t.endTimestamp = some et → et ≤ e') ∧
        ((j' = j ∧ s' = s ∧ e' = e) ∨ (j' < i ∧ e < e')) ∧
        (∀ k t et, j' < k → k < i → spans[k]? = some t → t.endTimestamp = some et → et < e') := by
  intro i
  induction i with
  | zero =>
    intro j s e _ hj hs
    exact ⟨j, s, e, rfl, hj, hs, le_refl e, fun k t et hk _ _ => absurd hk (Nat.not_lt_zero k),
      Or.inl ⟨rfl, rfl, rfl⟩, fun k t et _ hk _ _ => absurd hk (Nat.not_lt_zero k)⟩
  | succ i ih =>
    intro j s e hij hj hs
    have hjlen : j < spans.length := (List.getElem?_eq_some.mp hj).1
    have hilen : i < spans.length := by omega
    obtain ⟨span, hspan⟩ : ∃ sp, spans[i]? = some sp :=
      ⟨spans[i], List.getElem?_eq_getElem hilen⟩
    have hgo1 : trailingGo spans (i + 1) (some (j, s))
        = trailingGo spans i (trailingStep spans i (some (j, s))) := rfl
    rcases hse : span.endTimestamp with _ | ev
    · -- the visited span is open: accumulator kept
      have hstep := trailingStep_skip_open spans i j span s hspan hse hs
      obtain ⟨j', s', e', hgo, hj', hs', hle, hbound, hor, hnotie⟩ := ih j s e (by omega) hj hs
      refine ⟨j', s', e', by rw [hgo1, hstep]; exact hgo, hj', hs', hle, ?_, ?_, ?_⟩
      · intro k t et hk ht hte
        rcases Nat.lt_or_ge k i with hki | hki
        · exact hbound k t et hki ht hte
        · have hkeq : k = i := by omega
          subst hkeq
          rw [hspan] at ht
          injection ht with ht
          rw [← ht, hse] at hte
          exact absurd hte (by simp)
      · rcases hor with hcase | ⟨h1, h2⟩
        · exact Or.inl hcase
        · exact Or.inr ⟨by omega, h2⟩
      · intro k t et hjk hk ht hte
        rcases Nat.lt_or_ge k i with hki | hki
        · exact hnotie k t et hjk hki ht hte
        · have hkeq : k = i := by omega
          subst hkeq
          rw [hspan] at ht
          injection ht with ht
          rw [← ht, hse] at hte
          exact absurd hte (by simp)
    · by_cases hev : e < ev
      · -- strictly later end: the accumulator is replaced by (i, span)
        have hstep := trailingStep_update spans i j span s ev e hspan hse hs hev
        obtain ⟨j', s', e', hgo, hj', hs', hle, hbound, hor, hnotie⟩ :=
          ih i span ev (le_refl i) hspan hse
        refine ⟨j', s', e', by rw [hgo1, hstep]; exact hgo, hj', hs',
          le_of_lt (lt_of_lt_of_le hev hle), ?_, ?_, ?_⟩
        · intro k t et hk ht hte
          rcases Nat.lt_or_ge k i with hki | hki
          · exact hbound k t et hki ht hte
          · have hkeq : k = i := by omega
            subst hkeq
            rw [hspan] at ht
            injection ht with ht
            rw [← ht, hse] at hte
            injection hte with hte
            rw [← hte]
            exact hle
        · refine Or.inr ⟨?_, ?_⟩
          · rcases hor with ⟨h1, _, _⟩ | ⟨h1, _⟩ <;> omega
          · rcases hor with ⟨_, _, h3⟩ | ⟨_, h3⟩
            · rw [h3]; exact hev
            · exact lt_trans hev h3
        · intro k t et hjk hk ht hte
          rcases Nat.lt_or_ge k i with hki | hki
          · exact hnotie k t et hjk hki ht hte
          · have hkeq : k = i := by omega
            subst hkeq
            rw [hspan] at ht
            injection ht with ht
            rw [← ht, hse] at hte
            injection hte with hte
            rw [← hte]
            rcases hor with ⟨h1, _, _⟩ | ⟨_, h3⟩
            · omega
            · exact h3
      · -- tie or earlier end: the accumulator is kept
        have hstep := trailingStep_keep spans i j span s ev e hspan hse hs hev
        obtain ⟨j', s', e', hgo, hj', hs', hle, hbound, hor, hnotie⟩ := ih j s e (by omega) hj hs
        refine ⟨j', s', e', by rw [hgo1, hstep]; exact hgo, hj', hs', hle, ?_, ?_, ?_⟩
        · intro k t et hk ht hte
          rcases Nat.lt_or_ge k i with hki | hki
          · exact hbound k t et hki ht hte
          · have hkeq : k = i := by omega
            subst hkeq
            rw [hspan] at ht
            injection ht with ht
            rw [← ht, hse] at hte
            injection hte with hte
            rw [← hte]
            exact le_trans (not_lt.mp hev) hle
        · rcases hor with hcase | ⟨h1, h2⟩
          · exact Or.inl hcase
          · exact Or.inr ⟨by omega, h2⟩
        · intro k t et hjk hk ht hte
          rcases Nat.lt_or_ge k i with hki | hki
          · exact hnotie k t et hjk hki ht hte
          · have hkeq : k = i := by omega
            subst hkeq
            rw [hspan] at ht
            injection ht with ht
            rw [← ht, hse] at hte
            injection hte with hte
            rw [← hte]
            rcases hor with ⟨h1, _, _⟩ | ⟨_, h3⟩
            · omega
            · exact lt_of_le_of_lt (not_lt.mp hev) h3

/-- C10: in the backward scan of the finalize wrapper, (1) if the last span of
the list has no end timestamp it remains the selected trailing span regardless
of earlier spans, and (2) when the last span is ended, the scan selects the
ended span with maximal end timestamp, and on ties the one with the greatest
list index (the strict comparison never replaces the candidate on a tie). -/
theorem c10_theorem (spans : List Span) (m : Nat) (slast : Span)
    (hm : spans.length = m + 1) (hlast : spans[m]? = some slast) :
    (slast.endTimestamp = none → trailingScan spans = some (m, slast)) ∧
    (∀ (elast : ℚ) (j : Nat) (sj : Span) (ej : ℚ), slast.endTimestamp = some elast →
      spans[j]? = some sj → sj.endTimestamp = some ej →
      (∀ (k : Nat) (t : Span) (et : ℚ),
        spans[k]? = some t → t.endTimestamp = some et → et ≤ ej) →
      (∀ (k : Nat) (t : Span) (et : ℚ),
        j < k → spans[k]? = some t → t.endTimestamp = some et → et < ej) →
      trailingScan spans = some (j, sj)) := by
  have getInj : ∀ {a b : Span} {k : Nat}, spans[k]? = some a → spans[k]? = some b → a = b := by
    intro a b k h1 h2
    rw [h1] at h2
    injection h2
  constructor
  · intro hopen
    rw [trailingScan_eq_go spans m slast hm hlast]
    exact trailingGo_open_acc spans m m slast hopen
  · intro elast j sj ej hel hj hsj hmax hgreatest
    rw [trailingScan_eq_go spans m slast hm hlast]
    obtain ⟨j', s', e', hgo, hj', hs', hle, hbound, hor, hnotie⟩ :=
      trailingGo_argmax spans m m slast elast (le_refl m) hlast hel
    have hjlen : j < spans.length := (List.getElem?_eq_some.mp hj).1
    have hjm : j ≤ m := by omega
    have h1 : e' ≤ ej := hmax j' s' e' hj' hs'
    have h2 : ej ≤ e' := by
      rcases Nat.lt_or_ge j m with hjlt | hjge
      · exact hbound j sj ej hjlt hj hsj
      · have hjm' : j = m := by omega
        subst hjm'
        have hsl : sj = slast := getInj hj hlast
        rw [hsl, hel] at hsj
        injection hsj with hsj
        rw [← hsj]
        exact hle
    have heq : e' = ej := le_antisymm h1 h2
    rcases hor with ⟨hj'm, hs'm, he'm⟩ | ⟨hj'lt, hegt⟩
    · rcases Nat.lt_or_ge j m with hjlt | hjge
      · exfalso
        have hcon := hgreatest m slast elast hjlt hlast hel
        rw [← he'm, heq] at hcon
        exact lt_irrefl ej hcon
      · have hjm' : j = m := by omega
        subst hjm'
        have hsl : sj = slast := getInj hj hlast
        rw [hgo, hj'm, hs'm, hsl]
    · have hjlt : j < m := by
        rcases Nat.lt_or_ge j m with hjlt | hjge
        · exact hjlt
        · exfalso
          have hjm' : j = m := by omega
          subst hjm'
          have hsl : sj = slast := getInj hj hlast
          rw [hsl, hel] at hsj
          injection hsj with hsj
          rw [← hsj] at heq
          rw [heq] at hegt
          exact lt_irrefl elast hegt
      rcases Nat.lt_trichotomy j' j with hlt | heqj | hgt
      · exfalso
        have hcon := hnotie j sj ej hlt hjlt hj hsj
        rw [heq] at hcon
        exact lt_irrefl ej hcon
      · subst heqj
        rw [hgo, getInj hj' hj]
      · exfalso
        have hcon := hgreatest j' s' e' hgt hj' hs'
        rw [heq] at hcon
        exact lt_irrefl ej hcon

/-- C4: at finalize time, if the span selected by the backward scan has op
`"app.background"`, the wrapper removes exactly that span (the list becomes
`take i ++ drop (i+1)`); if the selected trailing span has any other op the
child-span list is left unchanged. -/
theorem c4_theorem (spans : List Span) (i : Nat) (s : Span)
    (hscan : trailingScan spans = some (i, s)) :
    spans[i]? = some s ∧
    (s.op = BACKGROUND_SPAN_OP →
      beforeTransactionFinishSpans spans = spans.take i ++ spans.drop (i + 1) ∧
      beforeTransactionFinish (some spans) = some (spans.take i ++ spans.drop (i + 1))) ∧
    (s.op ≠ BACKGROUND_SPAN_OP →
      beforeTransactionFinishSpans spans = spans ∧
      beforeTransactionFinish (some spans) = some spans) := by
  have hvalid : spans[i]? = some s :=
    trailingGo_valid spans spans.length none (fun _ _ h => nomatch h) i s hscan
  refine ⟨hvalid, ?_, ?_⟩
  · intro hop
    constructor
    · unfold beforeTransactionFinishSpans
      rw [hscan]
      dsimp only
      rw [if_pos hop, List.eraseIdx_eq_take_drop_succ]
    · unfold beforeTransactionFinish beforeTransactionFinishSpans
      dsimp only
      rw [hscan]
      dsimp only
      rw [if_pos hop, List.eraseIdx_eq_take_drop_succ]
  · intro hop
    constructor
    · unfold beforeTransactionFinishSpans
      rw [hscan]
      dsimp only
      rw [if_neg hop]
    · unfold beforeTransactionFinish beforeTransactionFinishSpans
      dsimp only
      rw [hscan]
      dsimp only
      rw [if_neg hop]

theorem c4_witness :
    [spanHttp, spanBgTrailing][1]? = some spanBgTrailing ∧
    beforeTransactionFinishSpans [spanHttp, spanBgTrailing]
      = [spanHttp, spanBgTrailing].take 1 ++ [spanHttp, spanBgTrailing].drop 2 ∧
    beforeTransactionFinish (some [spanHttp, spanBgTrailing])
      = some ([spanHttp, spanBgTrailing].take 1 ++ [spanHttp, spanBgTrailing].drop 2) := by
  obtain ⟨h1, h2, _⟩ := c4_theorem [spanHttp, spanBgTrailing] 1 spanBgTrailing (by decide)
  exact ⟨h1, (h2 rfl).1, (h2 rfl).2⟩

theorem c10_witness :
    trailingScan [spanHttp, spanOpenNav] = some (1, spanOpenNav) ∧
    trailingScan [spanTieA, spanTieB] = some (1, spanTieB) := by
  constructor
  · exact (c10_theorem [spanHttp, spanOpenNav] 1 spanOpenNav rfl rfl).1 rfl
  · refine (c10_theorem [spanTieA, spanTieB] 1 spanTieB rfl rfl).2 5 1 spanTieB 5 rfl rfl rfl
      ?_ ?_
    · intro k t et hk het
      rcases k with _ | _ | k
      · injection hk with hk
        rw [← hk] at het
        injection het with het
        rw [← het]
      · injection hk with hk
        rw [← hk] at het
        injection het with het
        rw [← het]
      · exact absurd hk (by simp)
    · intro k t et hgt hk het
      rcases k with _ | _ | k
      · omega
      · omega
      · exact absurd hk (by simp)
